import Mathlib

/-!
Verification of the gophertunnel packet codec and resource-pack layer.

The definitions below are shallow embeddings of the Go source:
* `Decode` embeds `packetData.Decode` from `minecraft/packet.go`;
* `decodeV4` embeds `packetData.decode` from the variant file `unnamed/part_004`;
* `ParseData` embeds `ParseData` from `minecraft/packet.go`;
* `Pack.*` embed the methods of `Pack` from `minecraft/resource/pack.go`
  (`packV1WriteTo` embeds `pack.WriteTo` from `unnamed/part_001`);
* `EntityMetadata` / `WriteEntityMetadata` embed
  `minecraft/protocol/entity_metadata.go`;
* `Version.unmarshalJSON` embeds `Version.UnmarshalJSON` from
  `minecraft/resource/pack.go`.

Byte buffers are modelled as `List Nat` of byte values; Go's `bytes.Buffer`
cursor is the remaining suffix. Fallible Go code returns `Option`/`Except`.
A few collaborators are absent from the sources (the primitive codec, the
packet header reader, `packet.Unknown`); those definitions are modelled from
the spec and marked as such in their doc comments.
-/

/-- Go error values recovered from faults or produced by collaborators are
kept abstract as their message strings. -/
abbrev GoErr := String

/-- Header of a packet, `packet.Header`. Modelled from the spec: the header
reader itself is not under the sources; the spec gives
`{ packetID: uint32, senderSubClient: small int, targetSubClient: small int }`
with the sub-client flags folded into the single varuint32 ID field. -/
structure Header where
  packetID : Nat
  senderSubClient : Nat
  targetSubClient : Nat
deriving DecidableEq

/-- The transient decode context `packetData` of `minecraft/packet.go`:
header, the full raw slice and the payload cursor (the bytes after the
header). -/
structure PacketData where
  header : Header
  full : List Nat
  payload : List Nat
deriving DecidableEq

/-- A decoded packet value. `typeName` is the Go dynamic type (what `%T`
prints); `unknownID` is `some id` exactly for the `packet.Unknown`
placeholder, which carries the raw packet ID (modelled from the spec: the
`Unknown` type is not under the sources); `fieldData` abstracts the decoded
payload fields. -/
structure Packet where
  typeName : String
  unknownID : Option Nat
  fieldData : List Nat
deriving DecidableEq

/-- A pool entry: the zero-value constructor of one packet type together with
the behaviour of that packet's `Marshal(reader)` call. `marshal` receives the
shield item ID threaded through `proto.NewReader` and the payload bytes and
either faults (the Go code raises a fault that `Decode` recovers, modelled as
`.error`) or returns the decoded field data and the unread remainder of the
payload. -/
structure PacketCtor where
  typeName : String
  marshal : Int → List Nat → Except GoErr (List Nat × List Nat)

/-- The packet registry `packet.Pool`: a mapping from numeric packet ID to a
constructor, modelled as an association list. -/
abbrev Pool := List (Nat × PacketCtor)

/-- Go map indexing `pool[id]`. -/
def lookupPool : Pool → Nat → Option PacketCtor
  | [], _ => none
  | (i, c) :: rest, id => if i = id then some c else lookupPool rest id

/-- The protocol adapter interface used by `Decode`: only `ConvertToLatest`
is consulted after the marshal phase (`NewReader` is folded into each
constructor's `marshal` behaviour). -/
structure Protocol where
  convertToLatest : Packet → List Packet

/-- Errors produced by `packetData.Decode`, one constructor per `fmt.Errorf`
site, carrying exactly the values interpolated by that format string:
`unknownPacket id` is `unknownPacketError{id}` ("unexpected packet (ID=%v)");
`recovered id e` is `fmt.Errorf("decode packet %v: %w", p.Header.PacketID,
recoveredErr.(error))`; `trailingBytes t n bs` is `fmt.Errorf("decode packet
%T: %v unread bytes left: 0x%x", pk, p.Payload.Len(), p.Payload.Bytes())`. -/
inductive DecodeErr where
  | unknownPacket (id : Nat)
  | recovered (id : Nat) (inner : GoErr)
  | trailingBytes (typeName : String) (remaining : Nat) (bs : List Nat)
deriving DecidableEq

/-- The packet ID interpolated into the error's format string, if any: the
unknown-packet and recovery messages name the ID, the trailing-bytes message
does not. -/
def errNamedId : DecodeErr → Option Nat
  | .unknownPacket i => some i
  | .recovered i _ => some i
  | .trailingBytes _ _ _ => none

/-- The packet type name interpolated into the error's format string, if
any: only the trailing-bytes message has a `%T` verb. -/
def errNamedType : DecodeErr → Option String
  | .trailingBytes t _ _ => some t
  | _ => none

/-- Modelled from the spec: `packet.Unknown`'s `Marshal` treats the packet as
an opaque placeholder and reads the entire remaining payload, so it never
faults and never leaves unread bytes. -/
def unknownMarshal : Int → List Nat → Except GoErr (List Nat × List Nat) :=
  fun _ payload => .ok (payload, [])

/-- The shared tail of both decode variants, from `r := proto.NewReader(...)`
onwards: run the selected packet's `Marshal`, recover a fault into an error
value, flag unread trailing bytes, and drop the packets when
`DisconnectOnInvalidPacket` is set and an error occurred; otherwise pass the
packet through `proto.ConvertToLatest`. -/
def decodeBody (proto : Protocol) (pd : PacketData) (dInvalid : Bool)
    (shieldID : Int) (typeName : String)
    (marshal : Int → List Nat → Except GoErr (List Nat × List Nat))
    (unknownID : Option Nat) : List Packet × Option DecodeErr :=
  match marshal shieldID pd.payload with
  | .error e => ([], some (.recovered pd.header.packetID e))
  | .ok (fieldData, remaining) =>
    let pk : Packet := ⟨typeName, unknownID, fieldData⟩
    let err : Option DecodeErr :=
      if remaining.length ≠ 0 then
        some (.trailingBytes typeName remaining.length remaining)
      else none
    if dInvalid && err.isSome then ([], err)
    else (proto.convertToLatest pk, err)

/-- Result of `packetData.Decode` from `minecraft/packet.go`: the returned
packets (`[]` for Go's nil slice), the returned error, and the pool as it
stands after the call (the Go map is passed by reference, so the embedding
threads it through to state what happened to it). -/
structure DecodeResult where
  pks : List Packet
  err : Option DecodeErr
  pool : Pool

/-- Embedding of `packetData.Decode` (`minecraft/packet.go` lines 54-83):
look the header's packet ID up in the pool; if absent, either return
`unknownPacketError` (when `DisconnectOnUnknownPacket`) or substitute the
`packet.Unknown` placeholder; then run the marshal phase under the
fault-recovery boundary. The `close` callback parameter of the Go function
is never invoked by this version. -/
def Decode (pool : Pool) (proto : Protocol) (pd : PacketData)
    (dUnknown dInvalid : Bool) (shieldID : Int) : DecodeResult :=
  match lookupPool pool pd.header.packetID with
  | none =>
    if dUnknown then
      { pks := [], err := some (.unknownPacket pd.header.packetID), pool := pool }
    else
      let r := decodeBody proto pd dInvalid shieldID "*packet.Unknown"
        unknownMarshal (some pd.header.packetID)
      { pks := r.1, err := r.2, pool := pool }
  | some ctor =>
    let r := decodeBody proto pd dInvalid shieldID ctor.typeName
      ctor.marshal none
    { pks := r.1, err := r.2, pool := pool }

/-- Result of the `unnamed/part_004` variant `packetData.decode`, whose
deferred function may call `conn.Close()`; `closeCalled` records whether it
did. -/
structure DecodeResultV4 where
  pks : List Packet
  err : Option DecodeErr
  closeCalled : Bool

/-- The deferred close logic of `unnamed/part_004` lines 50-64: on a non-nil
error, close when it is an `unknownPacketError` and `DisconnectOnUnknownPacket`
is set, otherwise close when `DisconnectOnInvalidPacket` is set. -/
def v4DeferClose (dUnknown dInvalid : Bool) : Option DecodeErr → Bool
  | some (.unknownPacket _) => dUnknown
  | some (.recovered _ _) => dInvalid
  | some (.trailingBytes _ _ _) => dInvalid
  | none => false

/-- Embedding of the variant `packetData.decode` (`unnamed/part_004` lines
49-88): same pool lookup and marshal phase as `Decode`, plus the deferred
function that closes the connection per the disconnect flags. -/
def decodeV4 (pool : Pool) (proto : Protocol) (pd : PacketData)
    (dUnknown dInvalid : Bool) (shieldID : Int) : DecodeResultV4 :=
  let r : List Packet × Option DecodeErr :=
    match lookupPool pool pd.header.packetID with
    | none =>
      if dUnknown then ([], some (.unknownPacket pd.header.packetID))
      else decodeBody proto pd dInvalid shieldID "*packet.Unknown"
        unknownMarshal (some pd.header.packetID)
    | some ctor =>
      decodeBody proto pd dInvalid shieldID ctor.typeName ctor.marshal none
  { pks := r.1, err := r.2, closeCalled := v4DeferClose dUnknown dInvalid r.2 }

/-- Modelled from the spec: the primitive codec's variable-length unsigned
integer writer (base-128 groups, continuation bit on all but the last), by
fuel-bounded recursion so that concrete values reduce. -/
def writeVarUAux : Nat → Nat → List Nat
  | 0, _ => []
  | fuel + 1, n =>
    if n < 128 then [n] else (n % 128 + 128) :: writeVarUAux fuel (n / 128)

/-- Modelled from the spec: encode one variable-length unsigned integer. -/
def writeVarU (n : Nat) : List Nat := writeVarUAux (n + 1) n

/-- Modelled from the spec: decode one variable-length unsigned integer from
the front of the cursor, returning the value and the unread remainder;
`none` when the cursor is exhausted before a terminating group. -/
def readVarU : List Nat → Option (Nat × List Nat)
  | [] => none
  | b :: rest =>
    if b < 128 then some (b, rest)
    else
      match readVarU rest with
      | some (v, rest2) => some ((b - 128) + 128 * v, rest2)
      | none => none

/-- Modelled from the spec: zigzag-fold a signed integer onto the unsigned
line, as the variable-length signed integer codec does before emitting
base-128 groups. -/
def zigzag (v : Int) : Nat :=
  if 0 ≤ v then 2 * v.toNat else 2 * (-v).toNat - 1

/-- Modelled from the spec: the inverse zigzag fold. -/
def unzigzag (u : Nat) : Int :=
  if u % 2 = 0 then ((u / 2 : Nat) : Int) else -((u / 2 : Nat) : Int) - 1

/-- Modelled from the spec: encode one variable-length signed integer. -/
def writeVarI (v : Int) : List Nat := writeVarU (zigzag v)

/-- Modelled from the spec: decode one variable-length signed integer. -/
def readVarI (data : List Nat) : Option (Int × List Nat) :=
  match readVarU data with
  | some (u, rest) => some (unzigzag u, rest)
  | none => none

/-- Modelled from the spec: write a fixed-size record of `k` bytes holding
the value `v` little-endian. -/
def writeLE : Nat → Nat → List Nat
  | 0, _ => []
  | k + 1, v => v % 256 :: writeLE k (v / 256)

/-- Modelled from the spec: read a fixed-size little-endian record of `k`
bytes; `none` when the cursor is too short. -/
def readLE : Nat → List Nat → Option (Nat × List Nat)
  | 0, data => some (0, data)
  | _ + 1, [] => none
  | k + 1, b :: rest =>
    match readLE k rest with
    | some (v, rest2) => some (b + 256 * v, rest2)
    | none => none

/-- Modelled from the spec: read exactly `k` raw bytes off the cursor;
`none` when the cursor is too short. -/
def readBytesN : Nat → List Nat → Option (List Nat × List Nat)
  | 0, data => some ([], data)
  | _ + 1, [] => none
  | k + 1, b :: rest =>
    match readBytesN k rest with
    | some (s, rest2) => some (b :: s, rest2)
    | none => none

/-- The failure of the header reader. Modelled from the spec:
`decodeHeader(buffer) -> Header | error(TruncatedHeader)`. -/
inductive HeaderErr where
  | truncated
deriving DecidableEq

/-- Errors returned by `ParseData`: `fmt.Errorf("read packet header: %w",
err)` wraps the header-read failure. -/
inductive ParseErr where
  | headerRead (inner : HeaderErr)
deriving DecidableEq

/-- Modelled from the spec: `packet.Header.Read` reads a single varuint32
from the front of the buffer and folds the packet ID and the two sub-client
flags out of it; a truncated buffer is a `TruncatedHeader` error. -/
def headerRead (data : List Nat) : Except HeaderErr (Header × List Nat) :=
  match readVarU data with
  | none => .error .truncated
  | some (v, rest) =>
    .ok ({ packetID := v % 1024, senderSubClient := v / 1024 % 4,
           targetSubClient := v / 4096 % 4 }, rest)

/-- Embedding of `ParseData` (`minecraft/packet.go` lines 18-27): read the
header off the front of the data; on failure return no `packetData` and the
wrapped error, otherwise a `packetData` holding the header, the full slice
and the remaining payload cursor. -/
def ParseData (data : List Nat) : Except ParseErr PacketData :=
  match headerRead data with
  | .error e => .error (.headerRead e)
  | .ok (h, rest) => .ok { header := h, full := data, payload := rest }

/-- Opaque stand-in for the parsed manifest of a resource pack (manifest
parsing is out of the core's scope per the spec and absent from the decisive
sources). -/
structure Manifest where
  token : Nat
deriving DecidableEq

/-- The resource-pack container `Pack` of `minecraft/resource/pack.go`, with
the archive file modelled by its byte content and the collaborator-owned
fields (`manifest`, `icon`) kept opaque. -/
structure Pack where
  manifest : Manifest
  downloadURL : String
  contentKey : String
  checksum : List Nat
  icon : Option Nat
  baseDir : String
  file : List Nat
  size : Nat
deriving DecidableEq

/-- Embedding of `Pack.Len`: the stored archive size. -/
def Pack.lenBytes (pack : Pack) : Nat := pack.size

/-- Embedding of `Pack.DataChunkCount` (`minecraft/resource/pack.go` lines
224-230): integer division of the length by the chunk size, plus one when it
does not divide evenly. -/
def Pack.dataChunkCount (pack : Pack) (length : Nat) : Nat :=
  let count := pack.lenBytes / length
  if pack.lenBytes % length ≠ 0 then count + 1 else count

/-- Embedding of `Pack.Encrypted` (`minecraft/resource/pack.go` lines
233-235): whether the content key is a non-empty string. -/
def Pack.encrypted (pack : Pack) : Bool := pack.contentKey != ""

/-- Embedding of `Pack.ContentKey`. -/
def Pack.getContentKey (pack : Pack) : String := pack.contentKey

/-- Embedding of `Pack.WithContentKey` (`minecraft/resource/pack.go` lines
272-275): the receiver is taken by value, so a copy with the new key is
returned and the original is untouched. -/
def Pack.withContentKey (pack : Pack) (key : String) : Pack :=
  { pack with contentKey := key }

/-- Modelled after `os.File.ReadAt` as used by both `WriteTo` loops: reading
`bufLen` bytes at `off` returns the available bytes and reports `io.EOF`
exactly when fewer than `bufLen` bytes were available. -/
def fileReadAt (data : List Nat) (off bufLen : Nat) : List Nat × Bool :=
  let chunk := (data.drop off).take bufLen
  (chunk, chunk.length < bufLen)

/-- Loop of `Pack.WriteTo` (`minecraft/resource/pack.go` lines 250-268) over
the not-yet-read suffix of the file: read up to 0x1000 bytes, advance the
offset by the count read, and on `io.EOF` break out of the loop WITHOUT
writing the just-read chunk; otherwise write the chunk and continue. Returns
(bytes written to `w`, final offset `off`). Fuel-bounded recursion; the
wrapper supplies ample fuel. -/
def packWriteToAux : Nat → List Nat → List Nat × Nat
  | 0, _ => ([], 0)
  | fuel + 1, remaining =>
    let r0 := fileReadAt remaining 0 4096
    if r0.2 then ([], r0.1.length)
    else
      let r := packWriteToAux fuel (remaining.drop 4096)
      (r0.1 ++ r.1, r0.1.length + r.2)

/-- Embedding of `Pack.WriteTo` from `minecraft/resource/pack.go`: the loop
applied to the whole archive. Returns (bytes written, returned count `n`). -/
def Pack.writeTo (pack : Pack) : List Nat × Nat :=
  packWriteToAux (pack.file.length + 1) pack.file

/-- Loop of the variant `pack.WriteTo` (`unnamed/part_001` lines 284-303):
read up to 0x1000 bytes, advance the offset, write the chunk whenever it is
non-empty, and only then return on `io.EOF` — so the final short chunk IS
written. Returns (bytes written, final offset). -/
def packV1WriteToAux : Nat → List Nat → List Nat × Nat
  | 0, _ => ([], 0)
  | fuel + 1, remaining =>
    let r0 := fileReadAt remaining 0 4096
    if r0.2 then (r0.1, r0.1.length)
    else
      let r := packV1WriteToAux fuel (remaining.drop 4096)
      (r0.1 ++ r.1, r0.1.length + r.2)

/-- Embedding of the variant `pack.WriteTo` from `unnamed/part_001`, applied
to the whole archive. -/
def packV1WriteTo (pack : Pack) : List Nat × Nat :=
  packV1WriteToAux (pack.file.length + 1) pack.file

/-- A value of an entity-metadata entry, one constructor per supported Go
type of `minecraft/protocol/entity_metadata.go`. Fixed-width machine values
are carried as their bit patterns (`vint16`, `vfloat32`, `vvec3` components),
strings and `ItemStack`s as their byte content, and varint-coded values as
integers. -/
inductive EntityValue where
  | vbyte (b : Nat)
  | vint16 (bits : Nat)
  | vint32 (v : Int)
  | vfloat32 (bits : Nat)
  | vstring (s : List Nat)
  | vitem (it : List Nat)
  | vblockpos (x y z : Int)
  | vint64 (v : Int)
  | vvec3 (a b c : Nat)
deriving DecidableEq

/-- The `EntityData*` type tag written before each value
(`minecraft/protocol/entity_metadata.go` lines 10-20). -/
def entityValueType : EntityValue → Nat
  | .vbyte _ => 0
  | .vint16 _ => 1
  | .vint32 _ => 2
  | .vfloat32 _ => 3
  | .vstring _ => 4
  | .vitem _ => 5
  | .vblockpos _ _ _ => 6
  | .vint64 _ => 7
  | .vvec3 _ _ _ => 8

/-- Bit-width side conditions a value inherits from its Go type (a `byte` is
below 256, an `int16` pattern below 2^16, a `float32` pattern below 2^32);
varint-coded values need no bound in this model. -/
def EntityValue.validBits : EntityValue → Bool
  | .vbyte b => b < 256
  | .vint16 bits => bits < 65536
  | .vint32 _ => true
  | .vfloat32 bits => bits < 4294967296
  | .vstring _ => true
  | .vitem _ => true
  | .vblockpos _ _ _ => true
  | .vint64 _ => true
  | .vvec3 a b c => a < 4294967296 && b < 4294967296 && c < 4294967296

/-- The per-type value writers dispatched by the `switch` of
`WriteEntityMetadata` (lines 100-130): `byte`/`int16` via little-endian
`binary.Write`, `int32`/`int64` as signed varints, `float32` as its 4-byte
pattern, `string` and `ItemStack` as length-prefixed bytes (the `Item`
primitive is absent from the sources and modelled from the spec as an opaque
length-prefixed record), `BlockPos` as three signed varints and `Vec3` as
three 4-byte patterns. -/
def writeEntityValue : EntityValue → List Nat
  | .vbyte b => writeLE 1 b
  | .vint16 bits => writeLE 2 bits
  | .vint32 v => writeVarI v
  | .vfloat32 bits => writeLE 4 bits
  | .vstring s => writeVarU s.length ++ s
  | .vitem it => writeVarU it.length ++ it
  | .vblockpos x y z => writeVarI x ++ writeVarI y ++ writeVarI z
  | .vint64 v => writeVarI v
  | .vvec3 a b c => writeLE 4 a ++ writeLE 4 b ++ writeLE 4 c

/-- The per-type value readers dispatched by the `switch` of `EntityMetadata`
(lines 38-77); an unrecognised type tag is the "unknown entity data type"
error, and any read failure propagates. -/
def readEntityValue : Nat → List Nat → Option (EntityValue × List Nat)
  | 0, src =>
    match readLE 1 src with
    | some (b, rest) => some (.vbyte b, rest)
    | none => none
  | 1, src =>
    match readLE 2 src with
    | some (bits, rest) => some (.vint16 bits, rest)
    | none => none
  | 2, src =>
    match readVarI src with
    | some (v, rest) => some (.vint32 v, rest)
    | none => none
  | 3, src =>
    match readLE 4 src with
    | some (bits, rest) => some (.vfloat32 bits, rest)
    | none => none
  | 4, src =>
    match readVarU src with
    | some (len, rest) =>
      match readBytesN len rest with
      | some (s, rest2) => some (.vstring s, rest2)
      | none => none
    | none => none
  | 5, src =>
    match readVarU src with
    | some (len, rest) =>
      match readBytesN len rest with
      | some (it, rest2) => some (.vitem it, rest2)
      | none => none
    | none => none
  | 6, src =>
    match readVarI src with
    | some (x, rest) =>
      match readVarI rest with
      | some (y, rest2) =>
        match readVarI rest2 with
        | some (z, rest3) => some (.vblockpos x y z, rest3)
        | none => none
      | none => none
    | none => none
  | 7, src =>
    match readVarI src with
    | some (v, rest) => some (.vint64 v, rest)
    | none => none
  | 8, src =>
    match readLE 4 src with
    | some (a, rest) =>
      match readLE 4 rest with
      | some (b, rest2) =>
        match readLE 4 rest2 with
        | some (c, rest3) => some (.vvec3 a b c, rest3)
        | none => none
      | none => none
    | none => none
  | _, _ => none

/-- An entity-metadata map, modelled as an association list from `uint32`
keys to values (a Go map iterated in some order). -/
abbrev MetaMap := List (Nat × EntityValue)

/-- Go map assignment `(*x)[key] = v`: replace the binding when the key is
present, otherwise add it. -/
def mapInsert : MetaMap → Nat → EntityValue → MetaMap
  | [], k, v => [(k, v)]
  | (k2, v2) :: rest, k, v =>
    if k2 = k then (k, v) :: rest else (k2, v2) :: mapInsert rest k v

/-- Embedding of `WriteEntityMetadata` (`minecraft/protocol/entity_metadata.go`
lines 88-139): the entry count as a varuint32 (the Go `uint32(len(x))` cast
reduces the length mod 2^32), then for each entry its key, its type tag and
its value. Writes to a `bytes.Buffer` cannot fail, and in this typed model
the "invalid entity metadata value type" default cannot arise, so the writer
is total. -/
def WriteEntityMetadata (x : MetaMap) : List Nat :=
  writeVarU (x.length % 4294967296) ++
    x.flatMap fun kv =>
      writeVarU kv.1 ++ writeVarU (entityValueType kv.2) ++ writeEntityValue kv.2

/-- The `for i < count` loop of `EntityMetadata`: read a key, a type tag and
a value per round and assign the value into the map. -/
def entityMetadataLoop : Nat → List Nat → MetaMap → Option (MetaMap × List Nat)
  | 0, src, acc => some (acc, src)
  | i + 1, src, acc =>
    match readVarU src with
    | none => none
    | some (key, s1) =>
      match readVarU s1 with
      | none => none
      | some (dataType, s2) =>
        match readEntityValue dataType s2 with
        | none => none
        | some (v, s3) => entityMetadataLoop i s3 (mapInsert acc key v)

/-- Embedding of `EntityMetadata` (`minecraft/protocol/entity_metadata.go`
lines 24-84): read the entry count, then run the entry loop over the map
passed in; the result is the filled map and the unread remainder of the
buffer. -/
def EntityMetadata (src : List Nat) (x : MetaMap) : Option (MetaMap × List Nat) :=
  match readVarU src with
  | none => none
  | some (count, s1) => entityMetadataLoop count s1 x

/-- The JSON values `encoding/json.Unmarshal` can deliver into an `any`:
numbers (Go `float64`; the `int(vv)` truncation of `UnmarshalJSON` is folded
into the carried integer, and the dead `case int` branch never fires),
strings, booleans, null, arrays, and objects (whose contents `UnmarshalJSON`
never inspects, kept as an opaque token). -/
inductive JsonVal where
  | jnum (v : Int)
  | jstr (s : List Char)
  | jbool (b : Bool)
  | jnull
  | jarr (elems : List JsonVal)
  | jobj (token : Nat)

/-- The three-component version `resource.Version` (`[3]int`). -/
structure Version where
  v0 : Int
  v1 : Int
  v2 : Int
deriving DecidableEq

/-- Go array indexing-assignment `v[i] = n` for the loop indices 0..2. -/
def Version.setIdx (v : Version) : Nat → Int → Version
  | 0, n => { v with v0 := n }
  | 1, n => { v with v1 := n }
  | 2, n => { v with v2 := n }
  | _ + 3, _ => v

/-- Model of `strconv.Atoi` as used on version components: an optional sign
followed by at least one decimal digit; anything else fails. -/
def digitsVal : List Char → Nat → Option Nat
  | [], acc => some acc
  | c :: rest, acc =>
    if '0' ≤ c ∧ c ≤ '9' then digitsVal rest (acc * 10 + (c.toNat - 48))
    else none

/-- Model of `strconv.Atoi` (sign handling wrapper over `digitsVal`). -/
def atoi : List Char → Option Int
  | [] => none
  | '+' :: rest =>
    if rest = [] then none else (digitsVal rest 0).map fun n => (n : Int)
  | '-' :: rest =>
    if rest = [] then none else (digitsVal rest 0).map fun n => -(n : Int)
  | s => (digitsVal s 0).map fun n => (n : Int)

/-- Split a character list at the first occurrence of `sep`; `none` when the
separator does not occur. -/
def breakOn (sep : Char) : List Char → Option (List Char × List Char)
  | [] => none
  | c :: rest =>
    if c = sep then some ([], rest)
    else
      match breakOn sep rest with
      | some (pre, post) => some (c :: pre, post)
      | none => none

/-- Model of `strings.SplitN(s, sep, n)` for a single-character separator:
at most `n` parts, the last part taking the unsplit remainder. -/
def splitNChar (sep : Char) : Nat → List Char → List (List Char)
  | 0, _ => []
  | 1, s => [s]
  | n + 2, s =>
    match breakOn sep s with
    | none => [s]
    | some (pre, post) => pre :: splitNChar sep (n + 1) post

/-- The `sp` of the string case of `Version.UnmarshalJSON`:
`strings.SplitN(strings.SplitN(val, "-", 2)[0], ".", 3)`. -/
def versionSp (s : List Char) : List (List Char) :=
  splitNChar '.' 3 (match splitNChar '-' 2 s with | p :: _ => p | [] => [])

/-- Error causes of `Version.UnmarshalJSON`: the `json.Unmarshal` failure on
malformed input, or a `strconv.Atoi` failure on the recorded component
string. -/
inductive VersionErr where
  | invalidJson
  | atoiFail (s : List Char)

/-- The `if len(sp) == 3` body of the string case: with exactly three parts,
parse them in order through `Atoi`, returning the first failure (Go returns
on the first failing component; with pure functions the later calls cannot
change that outcome), else the fully assigned version; with any other number
of parts the receiver is returned unchanged. -/
def versionStrCase : List (List Char) → Version → Except VersionErr Version
  | [a, b, c], _ =>
    (match atoi a, atoi b, atoi c with
      | none, _, _ => .error (.atoiFail a)
      | some _, none, _ => .error (.atoiFail b)
      | some _, some _, none => .error (.atoiFail c)
      | some n0, some n1, some n2 => .ok { v0 := n0, v1 := n1, v2 := n2 })
  | _, v => .ok v

/-- The `for i, vv := range val[:min(len(val), 3)]` loop of the array case:
numbers are truncated into `v[i]`, strings go through `Atoi` (a failure is
returned immediately), any other element type leaves `v[i]` untouched. -/
def versionArrLoop : List JsonVal → Nat → Version → Except VersionErr Version
  | [], _, v => .ok v
  | .jnum f :: rest, i, v => versionArrLoop rest (i + 1) (v.setIdx i f)
  | .jstr s :: rest, i, v =>
    match atoi s with
    | some n => versionArrLoop rest (i + 1) (v.setIdx i n)
    | none => .error (.atoiFail s)
  | _ :: rest, i, v => versionArrLoop rest (i + 1) v

/-- Embedding of `Version.UnmarshalJSON` (`minecraft/resource/pack.go` lines
538-578). The input is the result of `json.Unmarshal` on the raw bytes
(`.error ()` when they are not valid JSON). Arrays fill at most the first
three components; strings are split on the first dash, then into at most
three dot-separated parts, which must number exactly three to be parsed;
any other JSON value falls through the `switch` and the receiver is returned
unchanged with a nil error. -/
def Version.unmarshalJSON (input : Except Unit JsonVal) (v : Version) :
    Except VersionErr Version :=
  match input with
  | .error _ => .error .invalidJson
  | .ok val =>
    match val with
    | .jarr l => versionArrLoop (l.take 3) 0 v
    | .jstr s => versionStrCase (versionSp s) v
    | _ => .ok v

/-- Whether a JSON value hits the `[]any` or `string` case of the `switch`
in `Version.UnmarshalJSON`. -/
def JsonVal.isArrOrStr : JsonVal → Bool
  | .jarr _ => true
  | .jstr _ => true
  | _ => false

/-- Test fixture: a protocol already at the latest revision, whose
`ConvertToLatest` is the identity as the spec's Protocol invariant requires. -/
def idProtocol : Protocol := ⟨fun pk => [pk]⟩

/-- Test fixture: a parsed frame with packet ID 7 and a two-byte payload. -/
def samplePD : PacketData :=
  { header := { packetID := 7, senderSubClient := 0, targetSubClient := 0 },
    full := [7, 9, 8], payload := [9, 8] }

/-- Test fixture: a packet type whose `Marshal` consumes the whole payload. -/
def okCtor : PacketCtor :=
  { typeName := "*packet.TestPacket", marshal := fun _ payload => .ok (payload, []) }

/-- Test fixture: a packet type whose `Marshal` reads nothing, leaving the
whole payload unread. -/
def trailingCtor : PacketCtor :=
  { typeName := "*packet.TrailingPacket", marshal := fun _ payload => .ok ([], payload) }

/-- Test fixture: a packet type whose `Marshal` faults while decoding. -/
def faultingCtor : PacketCtor :=
  { typeName := "*packet.FaultingPacket", marshal := fun _ _ => .error "boom" }

/-- Test fixture: a pack whose archive holds five bytes, a length that is
not a multiple of the 0x1000 copy-buffer size. -/
def pack5 : Pack :=
  { manifest := ⟨0⟩, downloadURL := "", contentKey := "", checksum := [],
    icon := none, baseDir := "", file := [1, 2, 3, 4, 5], size := 5 }

/-- Reading back a varuint written with sufficient fuel recovers the value
and leaves the trailing bytes untouched. -/
theorem readVarU_writeVarUAux (fuel : Nat) :
    ∀ n, n < fuel → ∀ rest, readVarU (writeVarUAux fuel n ++ rest) = some (n, rest) := by
  induction fuel with
  | zero => intro n hn; omega
  | succ f ih =>
    intro n hn rest
    by_cases h : n < 128
    · simp [writeVarUAux, h, readVarU]
    · have h128 : 128 ≤ n := by omega
      have hdiv : n / 128 < f := by
        have h1 : n / 128 < n := Nat.div_lt_self (by omega) (by omega)
        omega
      simp only [writeVarUAux, if_neg h, List.cons_append, readVarU]
      have hb : ¬ n % 128 + 128 < 128 := by omega
      simp only [if_neg hb, ih (n / 128) hdiv rest]
      have hval : n % 128 + 128 - 128 + 128 * (n / 128) = n := by
        have := Nat.mod_add_div n 128
        omega
      rw [hval]

/-- Round trip of the varuint codec. -/
theorem readVarU_writeVarU (n : Nat) (rest : List Nat) :
    readVarU (writeVarU n ++ rest) = some (n, rest) :=
  readVarU_writeVarUAux (n + 1) n (Nat.lt_succ_self n) rest

/-- A successful varuint read only consumes bytes off the front: the unread
remainder is a suffix of the input. -/
theorem readVarU_split :
    ∀ data v rest, readVarU data = some (v, rest) → ∃ pre, data = pre ++ rest := by
  intro data
  induction data with
  | nil => intro v rest h; simp [readVarU] at h
  | cons b bs ih =>
    intro v rest h
    by_cases hb : b < 128
    · simp [readVarU, hb] at h
      exact ⟨[b], by simp [h.2]⟩
    · simp only [readVarU, if_neg hb] at h
      cases hr : readVarU bs with
      | none => rw [hr] at h; simp at h
      | some p =>
        rw [hr] at h
        obtain ⟨pre, hpre⟩ := ih p.1 p.2 hr
        simp at h
        exact ⟨b :: pre, by simp [hpre, h.2]⟩

/-- Round trip of the fixed-size little-endian record codec. -/
theorem readLE_writeLE (k : Nat) :
    ∀ v, v < 256 ^ k → ∀ rest, readLE k (writeLE k v ++ rest) = some (v, rest) := by
  induction k with
  | zero =>
    intro v hv rest
    have : v = 0 := by simpa using hv
    simp [this, writeLE, readLE]
  | succ j ih =>
    intro v hv rest
    have hdiv : v / 256 < 256 ^ j := by
      rw [Nat.div_lt_iff_lt_mul (by omega)]
      calc v < 256 ^ (j + 1) := hv
        _ = 256 ^ j * 256 := by rw [Nat.pow_succ]
    simp only [writeLE, List.cons_append, List.append_eq, readLE]
    rw [ih (v / 256) hdiv rest]
    have : v % 256 + 256 * (v / 256) = v := Nat.mod_add_div v 256
    simp [this]

/-- Round trip of raw byte extraction. -/
theorem readBytesN_append (s : List Nat) (rest : List Nat) :
    readBytesN s.length (s ++ rest) = some (s, rest) := by
  induction s with
  | nil => simp [readBytesN]
  | cons b bs ih => simp [readBytesN, ih]

/-- The zigzag fold is undone by its inverse. -/
theorem unzigzag_zigzag (v : Int) : unzigzag (zigzag v) = v := by
  unfold zigzag unzigzag
  by_cases h : 0 ≤ v
  · simp only [if_pos h]
    have h2 : (2 * v.toNat) % 2 = 0 := by omega
    simp only [if_pos h2]
    omega
  · simp only [if_neg h]
    have h1 : 1 ≤ (-v).toNat := by omega
    have h2 : ¬ (2 * (-v).toNat - 1) % 2 = 0 := by omega
    simp only [if_neg h2]
    omega

/-- Round trip of the signed varint codec. -/
theorem readVarI_writeVarI (v : Int) (rest : List Nat) :
    readVarI (writeVarI v ++ rest) = some (v, rest) := by
  simp [readVarI, writeVarI, readVarU_writeVarU, unzigzag_zigzag]

/-- Each supported value round-trips through its own type's writer and
reader, consuming exactly what was written. -/
theorem readEntityValue_write (v : EntityValue) (hv : v.validBits = true)
    (rest : List Nat) :
    readEntityValue (entityValueType v) (writeEntityValue v ++ rest) = some (v, rest) := by
  cases v with
  | vbyte b =>
    have hb : b < 256 := by simpa [EntityValue.validBits] using hv
    simp [entityValueType, writeEntityValue, readEntityValue,
      readLE_writeLE 1 b (by simpa using hb) rest]
  | vint16 bits =>
    have hb : bits < 65536 := by simpa [EntityValue.validBits] using hv
    simp [entityValueType, writeEntityValue, readEntityValue,
      readLE_writeLE 2 bits (by norm_num; omega) rest]
  | vint32 v =>
    simp [entityValueType, writeEntityValue, readEntityValue, readVarI_writeVarI]
  | vfloat32 bits =>
    have hb : bits < 4294967296 := by simpa [EntityValue.validBits] using hv
    simp [entityValueType, writeEntityValue, readEntityValue,
      readLE_writeLE 4 bits (by norm_num; omega) rest]
  | vstring s =>
    simp [entityValueType, writeEntityValue, readEntityValue,
      readVarU_writeVarU, readBytesN_append]
  | vitem it =>
    simp [entityValueType, writeEntityValue, readEntityValue,
      readVarU_writeVarU, readBytesN_append]
  | vblockpos x y z =>
    simp [entityValueType, writeEntityValue, readEntityValue,
      readVarI_writeVarI]
  | vint64 v =>
    simp [entityValueType, writeEntityValue, readEntityValue, readVarI_writeVarI]
  | vvec3 a b c =>
    have hb := hv
    simp only [EntityValue.validBits, Bool.and_eq_true, decide_eq_true_eq] at hb
    obtain ⟨⟨ha1, hb1⟩, hc1⟩ := hb
    simp [entityValueType, writeEntityValue, readEntityValue,
      readLE_writeLE 4 a (by norm_num; omega) ,
      readLE_writeLE 4 b (by norm_num; omega) ,
      readLE_writeLE 4 c (by norm_num; omega) ]

/-- Assigning a fresh key into the map appends the binding. -/
theorem mapInsert_notMem (acc : MetaMap) (k : Nat) (v : EntityValue)
    (h : k ∉ acc.map Prod.fst) : mapInsert acc k v = acc ++ [(k, v)] := by
  induction acc with
  | nil => simp [mapInsert]
  | cons kv rest ih =>
    simp only [List.map_cons, List.mem_cons] at h
    push_neg at h
    cases kv with
    | mk k2 v2 =>
      simp only [mapInsert, if_neg (by simpa using (Ne.symm h.1))]
      rw [ih h.2]
      simp

/-- Decoding the encodings of the remaining entries extends the accumulated
map by exactly those entries, in order, provided their keys are fresh and
mutually distinct. -/
theorem entityMetadataLoop_write (x : MetaMap) :
    ∀ acc : MetaMap, (x.map Prod.fst).Nodup →
    (∀ k ∈ x.map Prod.fst, k ∉ acc.map Prod.fst) →
    (∀ kv ∈ x, EntityValue.validBits kv.2 = true) →
    ∀ rest, entityMetadataLoop x.length
      ((x.flatMap fun kv =>
        writeVarU kv.1 ++ writeVarU (entityValueType kv.2) ++ writeEntityValue kv.2)
        ++ rest) acc = some (acc ++ x, rest) := by
  induction x with
  | nil => intro acc _ _ _ rest; simp [entityMetadataLoop]
  | cons kv tl ih =>
    intro acc hnodup hfresh hvalid rest
    cases kv with
    | mk k v =>
      have hvv : EntityValue.validBits v = true := hvalid (k, v) (by simp)
      simp only [List.flatMap_cons, List.length_cons, List.append_assoc]
      simp only [entityMetadataLoop, readVarU_writeVarU,
        readEntityValue_write v hvv]
      have hkfresh : k ∉ acc.map Prod.fst := hfresh k (by simp)
      rw [mapInsert_notMem acc k v hkfresh]
      simp only [List.map_cons, List.nodup_cons] at hnodup
      have htl := ih (acc ++ [(k, v)]) hnodup.2
        (by
          intro k2 hk2
          simp only [List.map_append, List.mem_append, List.map_cons,
            List.map_nil]
          push_neg
          constructor
          · exact hfresh k2 (by simp [hk2])
          · intro hk2k
            have hk2eq : k2 = k := by simpa using hk2k
            exact hnodup.1 (hk2eq ▸ hk2))
        (by intro kv2 hkv2; exact hvalid kv2 (by simp [hkv2]))
        rest
      simp only [List.append_assoc] at htl
      rw [htl]
      simp

/-- C1: for a packetData whose header packet ID is absent from the pool,
`Decode` returns an `unknownPacketError` iff `DisconnectOnUnknownPacket` is
set (returning no packets, and the part_004 variant's deferred function then
closes the connection); with the flag unset the result is the `Unknown`
placeholder carrying the raw packet ID, with no error. -/
theorem C1_unknown_packet_policy (pool : Pool) (proto : Protocol)
    (pd : PacketData) (dInvalid : Bool) (shieldID : Int)
    (habsent : lookupPool pool pd.header.packetID = none)
    (hconv : proto.convertToLatest
        ⟨"*packet.Unknown", some pd.header.packetID, pd.payload⟩
      = [⟨"*packet.Unknown", some pd.header.packetID, pd.payload⟩]) :
    (∀ dUnknown, (Decode pool proto pd dUnknown dInvalid shieldID).err
        = some (.unknownPacket pd.header.packetID) ↔ dUnknown = true)
    ∧ (Decode pool proto pd true dInvalid shieldID).pks = []
    ∧ (decodeV4 pool proto pd true dInvalid shieldID).closeCalled = true
    ∧ (Decode pool proto pd false dInvalid shieldID).pks
        = [⟨"*packet.Unknown", some pd.header.packetID, pd.payload⟩]
    ∧ (Decode pool proto pd false dInvalid shieldID).err = none := by
  refine ⟨?_, ?_, ?_, ?_, ?_⟩
  · intro dUnknown
    cases dUnknown
    · simp [Decode, habsent, decodeBody, unknownMarshal]
    · simp [Decode, habsent]
  · simp [Decode, habsent]
  · simp [decodeV4, habsent, v4DeferClose]
  · simp [Decode, habsent, decodeBody, unknownMarshal, hconv]
  · simp [Decode, habsent, decodeBody, unknownMarshal]

/-- C1 witness: with an empty pool, ID 7 is unknown; with the flag set the
error is returned and part_004's decode closes the connection; with it unset
the placeholder packet comes back error-free. -/
theorem C1_witness :
    (Decode [] idProtocol samplePD true false 0).err = some (.unknownPacket 7)
    ∧ (decodeV4 [] idProtocol samplePD true false 0).closeCalled = true
    ∧ (Decode [] idProtocol samplePD false false 0).pks
        = [⟨"*packet.Unknown", some 7, [9, 8]⟩]
    ∧ (Decode [] idProtocol samplePD false false 0).err = none := by
  have h := C1_unknown_packet_policy [] idProtocol samplePD false 0 rfl rfl
  exact ⟨(h.1 true).mpr rfl, h.2.2.1, h.2.2.2.1, h.2.2.2.2⟩

/-- C2: when a pooled packet's `Marshal` leaves unread payload bytes,
`Decode` reports a trailing-bytes error naming the packet type and the
remaining count; with `DisconnectOnInvalidPacket` set no packets are
returned, otherwise the decoded packet still comes back converted to the
latest revision; and an exactly-consumed payload yields no error. -/
theorem C2_trailing_bytes (pool : Pool) (proto : Protocol) (pd : PacketData)
    (dUnknown dInvalid : Bool) (shieldID : Int) (ctor : PacketCtor)
    (fieldData remaining : List Nat)
    (hfound : lookupPool pool pd.header.packetID = some ctor)
    (hm : ctor.marshal shieldID pd.payload = .ok (fieldData, remaining)) :
    (remaining ≠ [] →
        (Decode pool proto pd dUnknown dInvalid shieldID).err
          = some (.trailingBytes ctor.typeName remaining.length remaining)
        ∧ (dInvalid = true →
            (Decode pool proto pd dUnknown dInvalid shieldID).pks = [])
        ∧ (dInvalid = false →
            (Decode pool proto pd dUnknown dInvalid shieldID).pks
              = proto.convertToLatest ⟨ctor.typeName, none, fieldData⟩))
    ∧ (remaining = [] →
        (Decode pool proto pd dUnknown dInvalid shieldID).err = none) := by
  constructor
  · intro hne
    have hlen : remaining.length ≠ 0 := by simpa using hne
    refine ⟨?_, ?_, ?_⟩
    · cases dInvalid <;> simp [Decode, hfound, decodeBody, hm, hlen]
    · intro hd; subst hd; simp [Decode, hfound, decodeBody, hm, hlen]
    · intro hd; subst hd; simp [Decode, hfound, decodeBody, hm, hlen]
  · intro hnil; subst hnil
    simp [Decode, hfound, decodeBody, hm]

/-- C2 witness: a packet that reads nothing leaves both payload bytes
unread, reported as a trailing-bytes error with the packets dropped under
the strict flag; a packet that reads everything decodes without error. -/
theorem C2_witness :
    (Decode [(7, trailingCtor)] idProtocol samplePD false true 0).err
      = some (.trailingBytes "*packet.TrailingPacket" 2 [9, 8])
    ∧ (Decode [(7, trailingCtor)] idProtocol samplePD false true 0).pks = []
    ∧ (Decode [(7, okCtor)] idProtocol samplePD false false 0).err = none := by
  have h1 := C2_trailing_bytes [(7, trailingCtor)] idProtocol samplePD
    false true 0 trailingCtor [] [9, 8] rfl rfl
  have h2 := C2_trailing_bytes [(7, okCtor)] idProtocol samplePD
    false false 0 okCtor [9, 8] [] rfl rfl
  exact ⟨(h1.1 (by decide)).1, (h1.1 (by decide)).2.1 rfl, h2.2 rfl⟩

/-- C3 counterexample: a fault recovered inside `Decode` is returned as the
error built by `fmt.Errorf("decode packet %v: %w", ...)`, whose format
string interpolates the packet ID and the recovered fault but no packet
type, refuting the claim that the error names both the packet type and ID. -/
theorem C3_counterexample :
    (Decode [(7, faultingCtor)] idProtocol samplePD true true 0).err
      = some (.recovered 7 "boom")
    ∧ errNamedType (.recovered 7 "boom") = none := ⟨rfl, rfl⟩

/-- C3 (amended): any fault raised inside a pooled packet's `Marshal` is
caught at the recovery boundary and returned as an ordinary error value
naming the offending packet ID (the recovery error does not name the packet
type — only the trailing-bytes error does); no fault escapes, and no packets
are returned. -/
theorem C3_fault_containment (pool : Pool) (proto : Protocol)
    (pd : PacketData) (dUnknown dInvalid : Bool) (shieldID : Int)
    (ctor : PacketCtor) (e : GoErr)
    (hfound : lookupPool pool pd.header.packetID = some ctor)
    (hfault : ctor.marshal shieldID pd.payload = .error e) :
    (Decode pool proto pd dUnknown dInvalid shieldID).pks = []
    ∧ (Decode pool proto pd dUnknown dInvalid shieldID).err
        = some (.recovered pd.header.packetID e)
    ∧ errNamedId (.recovered pd.header.packetID e)
        = some pd.header.packetID := by
  refine ⟨?_, ?_, rfl⟩ <;> simp [Decode, hfound, decodeBody, hfault]

/-- C3 witness: the faulting packet's fault surfaces as the recovery error
carrying ID 7 and the fault message. -/
theorem C3_witness :
    (Decode [(7, faultingCtor)] idProtocol samplePD false false 0).pks = []
    ∧ (Decode [(7, faultingCtor)] idProtocol samplePD false false 0).err
      = some (.recovered 7 "boom") := by
  have h := C3_fault_containment [(7, faultingCtor)] idProtocol samplePD
    false false 0 faultingCtor "boom" rfl rfl
  exact ⟨h.1, h.2.1⟩

/-- C7: `Decode` only reads the pool — after the call every packet ID still
maps to exactly the constructor it mapped to before. -/
theorem C7_pool_read_only (pool : Pool) (proto : Protocol) (pd : PacketData)
    (dUnknown dInvalid : Bool) (shieldID : Int) (id : Nat) :
    lookupPool (Decode pool proto pd dUnknown dInvalid shieldID).pool id
      = lookupPool pool id := by
  have hpool : (Decode pool proto pd dUnknown dInvalid shieldID).pool = pool := by
    unfold Decode
    cases lookupPool pool pd.header.packetID with
    | none => cases dUnknown <;> simp
    | some ctor => simp
  rw [hpool]

/-- C4: an entity-metadata map of supported values, written into an empty
buffer and read back into an empty map, is reproduced exactly; the reader
consumes precisely the bytes the writer produced (any trailing bytes are
left untouched, and with none the buffer is fully drained). -/
theorem C4_entity_metadata_roundtrip (x : MetaMap)
    (hnodup : (x.map Prod.fst).Nodup)
    (hvalid : ∀ kv ∈ x, EntityValue.validBits kv.2 = true)
    (hlen : x.length < 4294967296) :
    (∀ rest, EntityMetadata (WriteEntityMetadata x ++ rest) [] = some (x, rest))
    ∧ EntityMetadata (WriteEntityMetadata x) [] = some (x, []) := by
  have hmain : ∀ rest,
      EntityMetadata (WriteEntityMetadata x ++ rest) [] = some (x, rest) := by
    intro rest
    simp only [EntityMetadata, WriteEntityMetadata, Nat.mod_eq_of_lt hlen,
      List.append_assoc, readVarU_writeVarU]
    have h := entityMetadataLoop_write x [] hnodup (by simp) hvalid rest
    simpa [List.append_assoc] using h
  refine ⟨hmain, ?_⟩
  have h := hmain []
  simpa using h

/-- C4 witness: a three-entry map with a byte, a string and a negative
varint value round-trips byte-exactly. -/
theorem C4_witness :
    EntityMetadata
      (WriteEntityMetadata [(1, .vbyte 200), (57, .vstring [104, 105]), (3, .vint32 (-5))]) []
      = some ([(1, .vbyte 200), (57, .vstring [104, 105]), (3, .vint32 (-5))], []) :=
  (C4_entity_metadata_roundtrip
    [(1, .vbyte 200), (57, .vstring [104, 105]), (3, .vint32 (-5))]
    (by decide) (by decide) (by decide)).2

/-- C5: a buffer whose header cannot be read makes `ParseData` return no
packetData and a recoverable error wrapping the header-read failure, while
a readable header yields a packetData whose payload cursor holds exactly
the bytes following the header. -/
theorem C5_parse_data (data : List Nat) :
    (∀ e, headerRead data = .error e →
        ParseData data = .error (.headerRead e))
    ∧ (∀ h rest, headerRead data = .ok (h, rest) →
        ParseData data = .ok { header := h, full := data, payload := rest }
        ∧ ∃ pre, data = pre ++ rest) := by
  constructor
  · intro e he
    simp [ParseData, he]
  · intro h rest hok
    refine ⟨by simp [ParseData, hok], ?_⟩
    unfold headerRead at hok
    cases hrv : readVarU data with
    | none => rw [hrv] at hok; simp at hok
    | some p =>
      rw [hrv] at hok
      simp only [Except.ok.injEq, Prod.mk.injEq] at hok
      obtain ⟨pre, hpre⟩ := readVarU_split data p.1 p.2 (by rw [hrv])
      exact ⟨pre, by rw [hpre, hok.2]⟩

/-- C5 witness: an empty buffer is a truncated header; the buffer `[5, 9]`
parses to a header with packet ID 5 and the payload cursor `[9]`. -/
theorem C5_witness :
    ParseData [] = .error (.headerRead .truncated)
    ∧ ParseData [5, 9]
      = .ok { header := { packetID := 5, senderSubClient := 0, targetSubClient := 0 },
              full := [5, 9], payload := [9] } := by
  refine ⟨(C5_parse_data []).1 .truncated rfl, ?_⟩
  exact ((C5_parse_data [5, 9]).2
    { packetID := 5, senderSubClient := 0, targetSubClient := 0 } [9] rfl).1

/-- C6: for a positive chunk length, `DataChunkCount` is the ceiling of the
pack length divided by the chunk length, and it is zero for an empty pack. -/
theorem C6_data_chunk_count (pack : Pack) (length : Nat) (hpos : 0 < length) :
    pack.dataChunkCount length = (pack.lenBytes + length - 1) / length
    ∧ (pack.lenBytes = 0 → pack.dataChunkCount length = 0) := by
  have hdm := Nat.div_add_mod pack.lenBytes length
  have hmod : pack.lenBytes % length < length := Nat.mod_lt _ hpos
  have hmain : pack.dataChunkCount length
      = (pack.lenBytes + length - 1) / length := by
    unfold Pack.dataChunkCount
    rcases eq_or_ne (pack.lenBytes % length) 0 with h0 | h0
    · rw [if_neg (by simp [h0])]
      have heq : pack.lenBytes + length - 1
          = length * (pack.lenBytes / length) + (length - 1) := by omega
      rw [heq, Nat.mul_add_div hpos,
        Nat.div_eq_of_lt (show length - 1 < length by omega)]
      omega
    · rw [if_pos h0]
      have hms : length * (pack.lenBytes / length + 1)
          = length * (pack.lenBytes / length) + length := by ring
      have heq : pack.lenBytes + length - 1
          = length * (pack.lenBytes / length + 1)
            + (pack.lenBytes % length - 1) := by omega
      rw [heq, Nat.mul_add_div hpos,
        Nat.div_eq_of_lt (show pack.lenBytes % length - 1 < length by omega)]
  refine ⟨hmain, fun hz => ?_⟩
  rw [hmain, hz]
  exact Nat.div_eq_of_lt (by omega)

/-- C6 witness: a five-byte pack splits into three chunks of length two
(ceiling of 5/2), and an empty pack into zero chunks. -/
theorem C6_witness :
    pack5.dataChunkCount 2 = (5 + 2 - 1) / 2
    ∧ ({ pack5 with size := 0 } : Pack).dataChunkCount 2 = 0 := by
  refine ⟨?_, ?_⟩
  · exact (C6_data_chunk_count pack5 2 (by decide)).1
  · exact (C6_data_chunk_count { pack5 with size := 0 } 2 (by decide)).2 rfl

/-- C8: evaluating both `WriteTo` loops on a five-byte archive (shorter than
the 0x1000 copy buffer): the `pack.go` version reads the final short block,
advances the offset past it and then breaks on `io.EOF` without writing it,
returning `n = 5` with zero bytes written, while the `part_001` variant
writes all five bytes before returning on `io.EOF`. -/
theorem C8_write_to_divergence :
    Pack.writeTo pack5 = ([], 5)
    ∧ packV1WriteTo pack5 = ([1, 2, 3, 4, 5], 5) := by
  constructor <;> rfl

/-- C9: `WithContentKey` returns a pack whose content key is the given key
and whose every other field is unchanged (the Go receiver is a value copy,
so the original pack keeps its key), and `Encrypted` holds exactly when the
content key is non-empty. -/
theorem C9_with_content_key (p : Pack) (k : String) :
    (p.withContentKey k).getContentKey = k
    ∧ (p.withContentKey k).manifest = p.manifest
    ∧ (p.withContentKey k).downloadURL = p.downloadURL
    ∧ (p.withContentKey k).checksum = p.checksum
    ∧ (p.withContentKey k).icon = p.icon
    ∧ (p.withContentKey k).baseDir = p.baseDir
    ∧ (p.withContentKey k).file = p.file
    ∧ (p.withContentKey k).size = p.size
    ∧ p.getContentKey = p.contentKey
    ∧ (p.encrypted = true ↔ p.getContentKey ≠ "") := by
  refine ⟨rfl, rfl, rfl, rfl, rfl, rfl, rfl, rfl, rfl, ?_⟩
  simp [Pack.encrypted, Pack.getContentKey]

/-- An error escaping the array-case loop is always an `Atoi` failure on one
of the element strings. -/
theorem versionArrLoop_err (l : List JsonVal) :
    ∀ i v e, versionArrLoop l i v = .error e →
      ∃ s, e = .atoiFail s ∧ atoi s = none := by
  induction l with
  | nil => intro i v e h; simp [versionArrLoop] at h
  | cons hd tl ih =>
    intro i v e h
    cases hd with
    | jnum f => exact ih _ _ _ (by simpa [versionArrLoop] using h)
    | jstr s =>
      rw [versionArrLoop] at h
      cases hat : atoi s with
      | some n =>
        rw [hat] at h
        exact ih _ _ _ h
      | none =>
        rw [hat] at h
        simp only [Except.error.injEq] at h
        exact ⟨s, h.symm, hat⟩
    | jbool b => exact ih _ _ _ (by simpa [versionArrLoop] using h)
    | jnull => exact ih _ _ _ (by simpa [versionArrLoop] using h)
    | jarr es => exact ih _ _ _ (by simpa [versionArrLoop] using h)
    | jobj t => exact ih _ _ _ (by simpa [versionArrLoop] using h)

/-- C10: `Version.UnmarshalJSON` errs only on invalid JSON or an `Atoi`
failure on an array element string or a version-string part; every valid
JSON value that is neither an array nor a string, and every string whose
pre-dash prefix has fewer than three dot-separated parts, returns a nil
error with the receiver unchanged; and arrays are read only up to their
first three elements. -/
theorem C10_version_unmarshal (input : Except Unit JsonVal) (v : Version) :
    (∀ e, Version.unmarshalJSON input v = .error e →
        (e = .invalidJson ∧ input = .error ())
        ∨ (∃ s, e = .atoiFail s ∧ atoi s = none
            ∧ ((∃ l, input = .ok (.jarr l)) ∨ (∃ t, input = .ok (.jstr t)))))
    ∧ (∀ val, input = .ok val → val.isArrOrStr = false →
        Version.unmarshalJSON input v = .ok v)
    ∧ (∀ s, input = .ok (.jstr s) → (versionSp s).length < 3 →
        Version.unmarshalJSON input v = .ok v)
    ∧ (∀ l, input = .ok (.jarr l) →
        Version.unmarshalJSON input v
          = Version.unmarshalJSON (.ok (.jarr (l.take 3))) v) := by
  refine ⟨?_, ?_, ?_, ?_⟩
  · intro e he
    cases input with
    | error u =>
      simp only [Version.unmarshalJSON, Except.error.injEq] at he
      exact .inl ⟨he.symm, by cases u; rfl⟩
    | ok val =>
      cases val with
      | jarr l =>
        rw [Version.unmarshalJSON] at he
        obtain ⟨s, hs, hat⟩ := versionArrLoop_err (l.take 3) 0 v e he
        exact .inr ⟨s, hs, hat, .inl ⟨l, rfl⟩⟩
      | jstr s =>
        rw [Version.unmarshalJSON] at he
        rcases hsp : versionSp s with _ | ⟨a, _ | ⟨b, _ | ⟨c, _ | _⟩⟩⟩ <;>
          rw [hsp] at he
        · simp [versionStrCase] at he
        · simp [versionStrCase] at he
        · simp [versionStrCase] at he
        · cases hat : atoi a with
          | none =>
            simp only [versionStrCase, hat, Except.error.injEq] at he
            exact .inr ⟨a, he.symm, hat, .inr ⟨s, rfl⟩⟩
          | some n0 =>
            cases hbt : atoi b with
            | none =>
              simp only [versionStrCase, hat, hbt, Except.error.injEq] at he
              exact .inr ⟨b, he.symm, hbt, .inr ⟨s, rfl⟩⟩
            | some n1 =>
              cases hct : atoi c with
              | none =>
                simp only [versionStrCase, hat, hbt, hct,
                  Except.error.injEq] at he
                exact .inr ⟨c, he.symm, hct, .inr ⟨s, rfl⟩⟩
              | some n2 =>
                simp [versionStrCase, hat, hbt, hct] at he
        · simp [versionStrCase] at he
      | jnum f => simp [Version.unmarshalJSON] at he
      | jbool b => simp [Version.unmarshalJSON] at he
      | jnull => simp [Version.unmarshalJSON] at he
      | jobj t => simp [Version.unmarshalJSON] at he
  · intro val hin hns
    subst hin
    cases val <;> simp_all [JsonVal.isArrOrStr, Version.unmarshalJSON]
  · intro s hin hlt
    subst hin
    rw [Version.unmarshalJSON]
    rcases hsp : versionSp s with _ | ⟨a, _ | ⟨b, _ | ⟨c, _ | _⟩⟩⟩
    · rfl
    · rfl
    · rfl
    · rw [hsp] at hlt; simp at hlt
    · rfl
  · intro l hin
    subst hin
    rw [Version.unmarshalJSON, Version.unmarshalJSON]
    simp [List.take_take]

/-- C10 witness: a boolean input and the two-part string "1.0" leave the
receiver unchanged with a nil error, and an array's fourth element is never
read. -/
theorem C10_witness :
    Version.unmarshalJSON (.ok (.jbool true)) ⟨1, 2, 3⟩ = .ok ⟨1, 2, 3⟩
    ∧ Version.unmarshalJSON (.ok (.jstr ['1', '.', '0'])) ⟨1, 2, 3⟩ = .ok ⟨1, 2, 3⟩
    ∧ Version.unmarshalJSON
        (.ok (.jarr [.jnum 4, .jnum 5, .jnum 6, .jstr ['x']])) ⟨1, 2, 3⟩
      = Version.unmarshalJSON (.ok (.jarr [.jnum 4, .jnum 5, .jnum 6])) ⟨1, 2, 3⟩ := by
  refine ⟨?_, ?_, ?_⟩
  · exact (C10_version_unmarshal (.ok (.jbool true)) ⟨1, 2, 3⟩).2.1
      (.jbool true) rfl rfl
  · exact (C10_version_unmarshal (.ok (.jstr ['1', '.', '0'])) ⟨1, 2, 3⟩).2.2.1
      ['1', '.', '0'] rfl (by decide)
  · exact (C10_version_unmarshal
      (.ok (.jarr [.jnum 4, .jnum 5, .jnum 6, .jstr ['x']])) ⟨1, 2, 3⟩).2.2.2
      [.jnum 4, .jnum 5, .jnum 6, .jstr ['x']] rfl
